import Mathlib

set_option autoImplicit false

/-!
Shallow embedding of the interaction registry of `httpmock`.

The embedded code is the `Interactions` registry (`Add`, `NextInteraction`,
`Interaction`, `AllInteractions`, `Reset`, `RequestResponse.Capture`,
`getKey`, `addDelay`, `NewRequestResponse`), the option machinery
(`option.ProcessOptions`, `option.WithResponseDelay`) and the
consume-then-capture step of the HTTP handler (`server.go`).

Modelling conventions:
* Go `[]byte` is `Bytes := List Nat`; `http.Header` is an association list
  from header name to value list.
* Go `interface{}` response payloads are opaque to the registry; they are
  modelled as `Option String` (nil vs. an opaque serialized value).
* a `RequestCaptureFunc` function value is opaque to the registry; it is
  modelled by `Option Nat` (nil vs. an identifier), and `Capture` returns
  the list of invocation events `(callback, body, headers)` it performs,
  so that "invoked exactly once with these values" is expressible.
* the Go map `map[string]*interactions` is an association list with
  first-match lookup and in-place update.
* `logger.Panic` inside `ProcessOptions` aborts the surrounding call; a
  computation that can panic returns `Except`.
* the per-key cursor `attempt` is a Go `int` that is only ever initialized
  to 0 and incremented, so it is carried as a `Nat`; the caller-supplied
  `attempt` argument of `Interaction` can be any integer and is carried
  as an `Int` (a negative value makes the Go code index a slice with a
  negative index, which panics: `Except.error ()` below).
* each registry method holds the registry mutex `lock` for its entire
  body, so a concurrent execution is equivalent to a serialization of
  atomic calls; the embedding is that serialization, explicit state
  passing of the whole registry value.
-/

/-- Go `[]byte`, as a list of byte values. -/
abbrev Bytes := List Nat

/-- Go `http.Header`: header name to list of values. -/
abbrev Header := List (String × List String)

/-- Record of one invocation of a capture callback: which callback,
with which body and headers. -/
abbrev CaptureEvent := Nat × Bytes × Header

/-- Embeds `option.HttpMockOptions`. -/
structure HttpMockOptions where
  Delay : Int
  deriving Repr, DecidableEq

/-- Embeds `option.HttpMockOptionFunc = func(*HttpMockOptions) error`:
state-passing on the options value, `Except.error` when the Go function
returns a non-nil error. -/
abbrev HttpMockOptionFunc := HttpMockOptions → Except String HttpMockOptions

/-- Embeds `option.WithResponseDelay`. -/
def WithResponseDelay (delay : Int) : HttpMockOptionFunc :=
  fun o => Except.ok { o with Delay := delay }

/-- Embeds `option.ProcessOptions`: starts from the zero value of
`HttpMockOptions`, applies each option function in order; on the first
error the Go code calls `logger.Panic`, which aborts the caller
(`Except.error`). -/
def ProcessOptions (optionFunc : List HttpMockOptionFunc) : Except String HttpMockOptions :=
  optionFunc.foldlM (fun op fn => fn op) ⟨0⟩

/-- Embeds `RequestResponse`. `CapturedRequestBody` and
`CapturedRequestHeaders` start at Go nil (`none`). -/
structure RequestResponse where
  Path : String
  Method : String
  ResponseHttpStatus : Int
  ResponseObject : Option String
  ResponseContentType : String
  CapturedRequestBody : Option Bytes
  CapturedRequestHeaders : Option Header
  DelayResponse : Int
  RequestCaptureFunc : Option Nat
  deriving Repr, DecidableEq

/-- Embeds the unexported Go struct `interactions` (one queue: cursor plus
record list). -/
structure interactionsEntry where
  attempt : Nat
  requestResponses : List RequestResponse
  deriving Repr, DecidableEq

/-- Embeds `Interactions`: the map `map[string]*interactions`
(the mutex and logger fields carry no state that the claims mention). -/
structure Interactions where
  interactions : List (String × interactionsEntry)
  deriving Repr, DecidableEq

/-- Lookup in the embedded Go map. -/
def mapFind (l : List (String × interactionsEntry)) (k : String) : Option interactionsEntry :=
  match l with
  | [] => none
  | (k2, v) :: rest => if k2 = k then some v else mapFind rest k

/-- Update/insert in the embedded Go map (`m.interactions[key] = mi`). -/
def mapInsert (l : List (String × interactionsEntry)) (k : String) (v : interactionsEntry) :
    List (String × interactionsEntry) :=
  match l with
  | [] => [(k, v)]
  | (k2, v2) :: rest => if k2 = k then (k, v) :: rest else (k2, v2) :: mapInsert rest k v

/-- Embeds `NewInteractions` (logger aside): an empty map. -/
def NewInteractions : Interactions := ⟨[]⟩

/-- Embeds `getKey`. -/
def getKey (method path : String) : String := method ++ "_" ++ path

/-- Embeds `addDelay`. -/
def addDelay (req : RequestResponse) (options : HttpMockOptions) : RequestResponse :=
  { req with DelayResponse := options.Delay }

/-- Embeds `NewRequestResponse`: struct literal (captured fields at their
zero values) followed by `addDelay`. -/
def NewRequestResponse (method path : String) (responseStatus : Int)
    (responseObject : Option String) (responseContentType : String)
    (requestCaptureFunc : Option Nat) (opts : HttpMockOptions) : RequestResponse :=
  addDelay
    { Path := path
      Method := method
      ResponseHttpStatus := responseStatus
      ResponseObject := responseObject
      ResponseContentType := responseContentType
      CapturedRequestBody := none
      CapturedRequestHeaders := none
      DelayResponse := 0
      RequestCaptureFunc := requestCaptureFunc } opts

/-- Embeds `Interactions.Add`. Source order: look the key up (creating a
fresh local entry when absent), run `ProcessOptions` (whose `logger.Panic`
aborts the call before anything is appended or stored), build the record,
append it, store the entry back in the map. -/
def Interactions.Add (m : Interactions) (method path : String) (responseStatus : Int)
    (responseObject : Option String) (responseContentType : String)
    (requestCaptureFunc : Option Nat) (opts : List HttpMockOptionFunc) :
    Except String Interactions :=
  let key := getKey method path
  let mi := match mapFind m.interactions key with
    | some mi => mi
    | none => ⟨0, []⟩
  match ProcessOptions opts with
  | Except.error e => Except.error e
  | Except.ok options =>
    let req := NewRequestResponse method path responseStatus responseObject
      responseContentType requestCaptureFunc options
    Except.ok ⟨mapInsert m.interactions key ⟨mi.attempt, mi.requestResponses ++ [req]⟩⟩

/-- Embeds `Interactions.NextInteraction`. Returns nil when the key is
absent or exhausted; otherwise copies the record at the cursor into a
local (`requestResponse := mi.requestResponses[mi.attempt]`), increments
the cursor, and returns a pointer to that detached copy. -/
def Interactions.NextInteraction (m : Interactions) (method path : String) :
    Option RequestResponse × Interactions :=
  let key := getKey method path
  match mapFind m.interactions key with
  | none => (none, m)
  | some mi =>
    if h : mi.attempt < mi.requestResponses.length then
      (some (mi.requestResponses.get ⟨mi.attempt, h⟩),
        ⟨mapInsert m.interactions key ⟨mi.attempt + 1, mi.requestResponses⟩⟩)
    else
      (none, m)

/-- Embeds `Interactions.Interaction` (ReadAt). Nil when the key is absent
or `attempt >= len`; otherwise the Go code indexes the slice at `attempt`,
which panics when `attempt` is negative (`Except.error ()`); no field of
the registry is written. -/
def Interactions.Interaction (m : Interactions) (method path : String) (attempt : Int) :
    Except Unit (Option RequestResponse) :=
  match mapFind m.interactions (getKey method path) with
  | none => Except.ok none
  | some mi =>
    if attempt ≥ (mi.requestResponses.length : Int) then Except.ok none
    else if attempt < 0 then Except.error ()
    else Except.ok (mi.requestResponses.get? attempt.toNat)

/-- Embeds `Interactions.AllInteractions` (ReadAll). -/
def Interactions.AllInteractions (m : Interactions) (method path : String) :
    List RequestResponse :=
  match mapFind m.interactions (getKey method path) with
  | none => []
  | some mi => mi.requestResponses

/-- Embeds `Interactions.Reset`: the whole map is replaced by a fresh
empty one. -/
def Interactions.Reset (_ : Interactions) : Interactions := ⟨[]⟩

/-- Embeds `RequestResponse.Capture`: writes the two captured fields of
the record the receiver points at, then invokes the callback when
non-nil. Returns the updated record together with the list of callback
invocations performed. -/
def RequestResponse.Capture (r : RequestResponse) (requestBody : Bytes) (headers : Header) :
    RequestResponse × List CaptureEvent :=
  let r2 := { r with
    CapturedRequestBody := some requestBody
    CapturedRequestHeaders := some headers }
  match r.RequestCaptureFunc with
  | some fn => (r2, [(fn, requestBody, headers)])
  | none => (r2, [])

/-- Embeds the consume-then-capture step of `Server.handler`
(`server.go`): `mock := NextInteraction(...)`, and when non-nil,
`mock.Capture(bodyBytes, headers)`. `mock` points at the detached copy
made inside `NextInteraction`, so `Capture` writes that copy, not the
registry. -/
def handlerDispatch (m : Interactions) (method path : String)
    (bodyBytes : Bytes) (headers : Header) :
    Option (RequestResponse × List CaptureEvent) × Interactions :=
  match m.NextInteraction method path with
  | (none, m2) => (none, m2)
  | (some mock, m2) => (some (mock.Capture bodyBytes headers), m2)

/-! ### Operation traces -/

/-- One registry operation, with the spec's names: Add, MatchNext
(`NextInteraction`), ReadAt (`Interaction`), ReadAll (`AllInteractions`),
Reset. -/
inductive Op where
  | add (method path : String) (responseStatus : Int) (responseObject : Option String)
      (responseContentType : String) (requestCaptureFunc : Option Nat)
      (opts : List HttpMockOptionFunc)
  | matchNext (method path : String)
  | readAt (method path : String) (attempt : Int)
  | readAll (method path : String)
  | reset

/-- Effect of one operation on the registry state. `ReadAt` and `ReadAll`
write nothing; an `Add` whose options panic aborts before mutating the
map, leaving the state unchanged. -/
def runOp (s : Interactions) (op : Op) : Interactions :=
  match op with
  | Op.add method path st obj ct cb opts =>
    match s.Add method path st obj ct cb opts with
    | Except.ok s2 => s2
    | Except.error _ => s
  | Op.matchNext method path => (s.NextInteraction method path).snd
  | Op.readAt _ _ _ => s
  | Op.readAll _ _ => s
  | Op.reset => s.Reset

/-- Effect of a sequence of operations. -/
def runOps (s : Interactions) (ops : List Op) : Interactions := ops.foldl runOp s

/-- Results and final state of `n` successive `NextInteraction` calls for
one key. -/
def matchN (s : Interactions) (method path : String) :
    Nat → List (Option RequestResponse) × Interactions
  | 0 => ([], s)
  | n + 1 =>
    let p := s.NextInteraction method path
    let q := matchN p.snd method path n
    (p.fst :: q.fst, q.snd)

/-- Arguments of one `Add` call, besides method and path. -/
structure AddArgs where
  responseStatus : Int
  responseObject : Option String
  responseContentType : String
  requestCaptureFunc : Option Nat
  opts : List HttpMockOptionFunc

/-- Successive `Add` calls for one key, aborted at the first option panic. -/
def addAll (s : Interactions) (method path : String) (argsList : List AddArgs) :
    Except String Interactions :=
  argsList.foldlM
    (fun st a => st.Add method path a.responseStatus a.responseObject
      a.responseContentType a.requestCaptureFunc a.opts) s

/-- Record that a successful `Add` with these arguments appends (`none`
when its options panic). -/
def addedRecord (method path : String) (a : AddArgs) : Option RequestResponse :=
  match ProcessOptions a.opts with
  | Except.ok o => some (NewRequestResponse method path a.responseStatus a.responseObject
      a.responseContentType a.requestCaptureFunc o)
  | Except.error _ => none

/-- Cursor of a key, 0 when the key is absent. -/
def cursorOf (s : Interactions) (key : String) : Nat :=
  match mapFind s.interactions key with
  | none => 0
  | some mi => mi.attempt

/-- Stored records of a key, `[]` when the key is absent. -/
def recordsOf (s : Interactions) (key : String) : List RequestResponse :=
  match mapFind s.interactions key with
  | none => []
  | some mi => mi.requestResponses

/-- Operation on the given (method, path) pair through Add or MatchNext. -/
def opForPair (method path : String) : Op → Prop
  | Op.add m2 p2 _ _ _ _ _ => m2 = method ∧ p2 = path
  | Op.matchNext m2 p2 => m2 = method ∧ p2 = path
  | _ => False

/-- Operation that adds a record under the given derived key. -/
def opAddsKey (key : String) : Op → Prop
  | Op.add m2 p2 _ _ _ _ _ => getKey m2 p2 = key
  | _ => False

/-- Operation that can write the entry of the given derived key:
an Add or MatchNext whose pair derives to that key, or a Reset. -/
def opTouches (key : String) : Op → Prop
  | Op.add m2 p2 _ _ _ _ _ => getKey m2 p2 = key
  | Op.matchNext m2 p2 => getKey m2 p2 = key
  | Op.readAt _ _ _ => False
  | Op.readAll _ _ => False
  | Op.reset => True

/-! ### Map lemmas -/

theorem mapFind_insert_self (l : List (String × interactionsEntry)) (k : String)
    (v : interactionsEntry) : mapFind (mapInsert l k v) k = some v := by
  induction l with
  | nil => simp [mapInsert, mapFind]
  | cons hd tl ih =>
    obtain ⟨k2, v2⟩ := hd
    by_cases h : k2 = k
    · simp [mapInsert, mapFind, h]
    · simp [mapInsert, mapFind, h, ih]

theorem mapFind_insert_other (l : List (String × interactionsEntry)) (k k2 : String)
    (v : interactionsEntry) (h : k ≠ k2) :
    mapFind (mapInsert l k v) k2 = mapFind l k2 := by
  induction l with
  | nil => simp [mapInsert, mapFind, h]
  | cons hd tl ih =>
    obtain ⟨k3, v3⟩ := hd
    by_cases h3 : k3 = k
    · subst h3
      simp [mapInsert, mapFind, h]
    · simp [mapInsert, mapFind, h3, ih]

/-! ### Characterization of the operations -/

theorem nextInteraction_absent (s : Interactions) (method path : String)
    (h : mapFind s.interactions (getKey method path) = none) :
    s.NextInteraction method path = (none, s) := by
  simp [Interactions.NextInteraction, h]

theorem nextInteraction_exhausted (s : Interactions) (method path : String)
    (mi : interactionsEntry) (h : mapFind s.interactions (getKey method path) = some mi)
    (h2 : mi.requestResponses.length ≤ mi.attempt) :
    s.NextInteraction method path = (none, s) := by
  simp [Interactions.NextInteraction, h, Nat.not_lt.mpr h2]

theorem nextInteraction_hit (s : Interactions) (method path : String)
    (mi : interactionsEntry) (h : mapFind s.interactions (getKey method path) = some mi)
    (h2 : mi.attempt < mi.requestResponses.length) :
    s.NextInteraction method path =
      (some (mi.requestResponses.get ⟨mi.attempt, h2⟩),
        ⟨mapInsert s.interactions (getKey method path) ⟨mi.attempt + 1, mi.requestResponses⟩⟩) := by
  simp [Interactions.NextInteraction, h, h2]

theorem add_ok (s : Interactions) (method path : String) (st : Int) (obj : Option String)
    (ct : String) (cb : Option Nat) (opts : List HttpMockOptionFunc) (o : HttpMockOptions)
    (h : ProcessOptions opts = Except.ok o) :
    s.Add method path st obj ct cb opts =
      Except.ok ⟨mapInsert s.interactions (getKey method path)
        ⟨cursorOf s (getKey method path),
          recordsOf s (getKey method path)
            ++ [NewRequestResponse method path st obj ct cb o]⟩⟩ := by
  cases hf : mapFind s.interactions (getKey method path) <;>
    simp [Interactions.Add, cursorOf, recordsOf, h, hf]

theorem add_error (s : Interactions) (method path : String) (st : Int) (obj : Option String)
    (ct : String) (cb : Option Nat) (opts : List HttpMockOptionFunc) (e : String)
    (h : ProcessOptions opts = Except.error e) :
    s.Add method path st obj ct cb opts = Except.error e := by
  simp [Interactions.Add, h]

/-- Behaviour of one `NextInteraction` call, phrased through the cursor
and the stored records of the key. -/
theorem nextInteraction_step (s : Interactions) (method path : String) :
    (cursorOf s (getKey method path) < (recordsOf s (getKey method path)).length →
      (s.NextInteraction method path).fst
          = (recordsOf s (getKey method path)).get? (cursorOf s (getKey method path))
        ∧ cursorOf (s.NextInteraction method path).snd (getKey method path)
          = cursorOf s (getKey method path) + 1
        ∧ recordsOf (s.NextInteraction method path).snd (getKey method path)
          = recordsOf s (getKey method path)
        ∧ ∀ k, k ≠ getKey method path →
            mapFind (s.NextInteraction method path).snd.interactions k
              = mapFind s.interactions k)
    ∧ ((recordsOf s (getKey method path)).length ≤ cursorOf s (getKey method path) →
        s.NextInteraction method path = (none, s)) := by
  cases hf : mapFind s.interactions (getKey method path) with
  | none =>
    constructor
    · intro hlt
      simp [cursorOf, recordsOf, hf] at hlt
    · intro _
      exact nextInteraction_absent s method path hf
  | some mi =>
    constructor
    · intro hlt
      simp only [cursorOf, recordsOf, hf] at hlt ⊢
      rw [nextInteraction_hit s method path mi hf hlt]
      refine ⟨by simp [List.get?_eq_get hlt], ?_, ?_, ?_⟩
      · simp [cursorOf, mapFind_insert_self]
      · simp [recordsOf, mapFind_insert_self]
      · intro k hk
        exact mapFind_insert_other _ _ _ _ (Ne.symm hk)
    · intro hle
      simp only [cursorOf, recordsOf, hf] at hle
      exact nextInteraction_exhausted s method path mi hf hle

theorem matchN_zero (s : Interactions) (method path : String) :
    matchN s method path 0 = ([], s) := rfl

theorem matchN_succ (s : Interactions) (method path : String) (n : Nat) :
    matchN s method path (n + 1)
      = ((s.NextInteraction method path).fst
          :: (matchN (s.NextInteraction method path).snd method path n).fst,
         (matchN (s.NextInteraction method path).snd method path n).snd) := rfl

/-- Draining a key with `n` `NextInteraction` calls: the calls return the
unconsumed records in storage order, then `none`; the cursor advances to
`min (cursor + n) len`; the stored records and all other keys are
untouched. -/
theorem matchN_spec (method path : String) (n : Nat) :
    ∀ s : Interactions,
      cursorOf s (getKey method path) ≤ (recordsOf s (getKey method path)).length →
      (matchN s method path n).fst
          = (((recordsOf s (getKey method path)).drop
                (cursorOf s (getKey method path))).take n).map some
            ++ List.replicate
                (n - ((recordsOf s (getKey method path)).length
                      - cursorOf s (getKey method path))) none
        ∧ cursorOf (matchN s method path n).snd (getKey method path)
          = min (cursorOf s (getKey method path) + n)
              (recordsOf s (getKey method path)).length
        ∧ recordsOf (matchN s method path n).snd (getKey method path)
          = recordsOf s (getKey method path)
        ∧ ∀ k, k ≠ getKey method path →
            mapFind (matchN s method path n).snd.interactions k
              = mapFind s.interactions k := by
  induction n with
  | zero =>
    intro s hinv
    refine ⟨by simp [matchN_zero], ?_, by simp [matchN_zero], fun k _ => by simp [matchN_zero]⟩
    rw [matchN_zero]
    simp [Nat.min_eq_left hinv]
  | succ n ih =>
    intro s hinv
    by_cases hlt :
        cursorOf s (getKey method path) < (recordsOf s (getKey method path)).length
    · obtain ⟨h1, h2, h3, h4⟩ := (nextInteraction_step s method path).1 hlt
      obtain ⟨ih1, ih2, ih3, ih4⟩ :=
        ih (s.NextInteraction method path).snd (by rw [h2, h3]; omega)
      refine ⟨?_, ?_, ?_, ?_⟩
      · rw [matchN_succ]
        show (s.NextInteraction method path).fst
            :: (matchN (s.NextInteraction method path).snd method path n).fst = _
        rw [h1, ih1, h2, h3]
        rw [List.drop_eq_getElem_cons hlt, List.take_succ_cons, List.map_cons]
        rw [List.get?_eq_get hlt]
        have harith :
            n + 1 - ((recordsOf s (getKey method path)).length
              - cursorOf s (getKey method path))
            = n - ((recordsOf s (getKey method path)).length
              - (cursorOf s (getKey method path) + 1)) := by omega
        rw [harith]
        simp
      · rw [matchN_succ]
        show cursorOf (matchN (s.NextInteraction method path).snd method path n).snd _ = _
        rw [ih2, h2, h3]
        congr 1
        omega
      · rw [matchN_succ]
        show recordsOf (matchN (s.NextInteraction method path).snd method path n).snd _ = _
        rw [ih3, h3]
      · intro k hk
        rw [matchN_succ]
        show mapFind (matchN (s.NextInteraction method path).snd method path n).snd.interactions k
            = _
        rw [ih4 k hk, h4 k hk]
    · have hc : (recordsOf s (getKey method path)).length
          = cursorOf s (getKey method path) := by omega
      have hstep := (nextInteraction_step s method path).2 (Nat.le_of_not_lt hlt)
      obtain ⟨ih1, ih2, ih3, ih4⟩ := ih s hinv
      refine ⟨?_, ?_, ?_, ?_⟩
      · rw [matchN_succ, hstep]
        show (none : Option RequestResponse) :: (matchN s method path n).fst = _
        rw [ih1]
        have hdrop : (recordsOf s (getKey method path)).drop
            (cursorOf s (getKey method path)) = [] :=
          List.drop_eq_nil_of_le (Nat.le_of_not_lt hlt)
        have hz : (recordsOf s (getKey method path)).length
            - cursorOf s (getKey method path) = 0 := by omega
        rw [hdrop, hz]
        simp [List.replicate_succ]
      · rw [matchN_succ, hstep]
        show cursorOf (matchN s method path n).snd _ = _
        rw [ih2]
        omega
      · rw [matchN_succ, hstep]
        show recordsOf (matchN s method path n).snd _ = _
        rw [ih3]
      · intro k hk
        rw [matchN_succ, hstep]
        show mapFind (matchN s method path n).snd.interactions k = _
        rw [ih4 k hk]

theorem runOps_nil (s : Interactions) : runOps s [] = s := rfl

theorem runOps_cons (s : Interactions) (op : Op) (ops : List Op) :
    runOps s (op :: ops) = runOps (runOp s op) ops := rfl

/-- Frame lemma: an operation that does not touch a key leaves that key's
map entry unchanged. -/
theorem runOp_find_untouched (s : Interactions) (op : Op) (k : String)
    (h : ¬ opTouches k op) :
    mapFind (runOp s op).interactions k = mapFind s.interactions k := by
  cases op with
  | add m2 p2 st obj ct cb opts =>
    simp only [opTouches] at h
    cases hpo : ProcessOptions opts with
    | error e => simp [runOp, add_error s m2 p2 st obj ct cb opts e hpo]
    | ok o =>
      simp [runOp, add_ok s m2 p2 st obj ct cb opts o hpo,
        mapFind_insert_other _ _ _ _ h]
  | matchNext m2 p2 =>
    simp only [opTouches] at h
    cases hf : mapFind s.interactions (getKey m2 p2) with
    | none => simp [runOp, nextInteraction_absent s m2 p2 hf]
    | some mi =>
      by_cases hlt : mi.attempt < mi.requestResponses.length
      · simp [runOp, nextInteraction_hit s m2 p2 mi hf hlt,
          mapFind_insert_other _ _ _ _ h]
      · simp [runOp, nextInteraction_exhausted s m2 p2 mi hf (Nat.le_of_not_lt hlt)]
  | readAt m2 p2 a => rfl
  | readAll m2 p2 => rfl
  | reset => exact absurd trivial h

theorem runOps_find_untouched (s : Interactions) (ops : List Op) (k : String)
    (h : ∀ op ∈ ops, ¬ opTouches k op) :
    mapFind (runOps s ops).interactions k = mapFind s.interactions k := by
  induction ops generalizing s with
  | nil => rfl
  | cons op rest ih =>
    rw [runOps_cons, ih (runOp s op) (fun o ho => h o (List.mem_cons_of_mem op ho)),
      runOp_find_untouched s op k (h op (List.mem_cons_self op rest))]

/-- Frame lemma: an absent key stays absent under any operation that is
not an Add for it. -/
theorem runOp_absent (s : Interactions) (op : Op) (k : String)
    (h : mapFind s.interactions k = none) (h2 : ¬ opAddsKey k op) :
    mapFind (runOp s op).interactions k = none := by
  cases op with
  | add m2 p2 st obj ct cb opts =>
    simp only [opAddsKey] at h2
    cases hpo : ProcessOptions opts with
    | error e => simpa [runOp, add_error s m2 p2 st obj ct cb opts e hpo] using h
    | ok o =>
      simpa [runOp, add_ok s m2 p2 st obj ct cb opts o hpo,
        mapFind_insert_other _ _ _ _ h2] using h
  | matchNext m2 p2 =>
    by_cases hk : getKey m2 p2 = k
    · subst hk
      simpa [runOp, nextInteraction_absent s m2 p2 h] using h
    · cases hf : mapFind s.interactions (getKey m2 p2) with
      | none => simpa [runOp, nextInteraction_absent s m2 p2 hf] using h
      | some mi =>
        by_cases hlt : mi.attempt < mi.requestResponses.length
        · simpa [runOp, nextInteraction_hit s m2 p2 mi hf hlt,
            mapFind_insert_other _ _ _ _ hk] using h
        · simpa [runOp,
            nextInteraction_exhausted s m2 p2 mi hf (Nat.le_of_not_lt hlt)] using h
  | readAt m2 p2 a => exact h
  | readAll m2 p2 => exact h
  | reset => rfl

theorem runOps_absent (s : Interactions) (ops : List Op) (k : String)
    (h : mapFind s.interactions k = none) (h2 : ∀ op ∈ ops, ¬ opAddsKey k op) :
    mapFind (runOps s ops).interactions k = none := by
  induction ops generalizing s with
  | nil => exact h
  | cons op rest ih =>
    rw [runOps_cons]
    exact ih (runOp s op) (runOp_absent s op k h (h2 op (List.mem_cons_self op rest)))
      (fun o ho => h2 o (List.mem_cons_of_mem op ho))

/-- Behaviour of one successful `Add`, phrased through the cursor and the
stored records. -/
theorem add_ok_spec (s : Interactions) (method path : String) (st : Int)
    (obj : Option String) (ct : String) (cb : Option Nat)
    (opts : List HttpMockOptionFunc) (o : HttpMockOptions)
    (h : ProcessOptions opts = Except.ok o) :
    ∃ s2, s.Add method path st obj ct cb opts = Except.ok s2
      ∧ cursorOf s2 (getKey method path) = cursorOf s (getKey method path)
      ∧ recordsOf s2 (getKey method path)
        = recordsOf s (getKey method path) ++ [NewRequestResponse method path st obj ct cb o]
      ∧ ∀ k, k ≠ getKey method path → mapFind s2.interactions k = mapFind s.interactions k := by
  refine ⟨_, add_ok s method path st obj ct cb opts o h, ?_, ?_, ?_⟩
  · simp [cursorOf, mapFind_insert_self]
  · simp [recordsOf, mapFind_insert_self]
  · intro k hk
    exact mapFind_insert_other _ _ _ _ (Ne.symm hk)

theorem addAll_nil (s : Interactions) (method path : String) :
    addAll s method path [] = Except.ok s := rfl

theorem addAll_cons (s : Interactions) (method path : String) (a : AddArgs)
    (args : List AddArgs) :
    addAll s method path (a :: args)
      = match s.Add method path a.responseStatus a.responseObject a.responseContentType
          a.requestCaptureFunc a.opts with
        | Except.ok s2 => addAll s2 method path args
        | Except.error e => Except.error e := by
  cases h : s.Add method path a.responseStatus a.responseObject a.responseContentType
      a.requestCaptureFunc a.opts <;>
    (simp only [addAll, List.foldlM, h]; rfl)

/-- Behaviour of a successful sequence of `Add` calls for one key: each
call appends the record built from its arguments, the cursor is
untouched, every other key is untouched. -/
theorem addAll_ok (method path : String) (argsList : List AddArgs) :
    ∀ s s2 : Interactions, addAll s method path argsList = Except.ok s2 →
      ∃ rs : List RequestResponse,
        argsList.map (addedRecord method path) = rs.map some
        ∧ cursorOf s2 (getKey method path) = cursorOf s (getKey method path)
        ∧ recordsOf s2 (getKey method path) = recordsOf s (getKey method path) ++ rs
        ∧ ∀ k, k ≠ getKey method path →
            mapFind s2.interactions k = mapFind s.interactions k := by
  induction argsList with
  | nil =>
    intro s s2 h
    rw [addAll_nil] at h
    cases h
    exact ⟨[], rfl, rfl, by simp, fun k _ => rfl⟩
  | cons a args ih =>
    intro s s2 h
    rw [addAll_cons] at h
    cases hpo : ProcessOptions a.opts with
    | error e =>
      rw [add_error s method path a.responseStatus a.responseObject a.responseContentType
        a.requestCaptureFunc a.opts e hpo] at h
      cases h
    | ok o =>
      obtain ⟨s1, hadd, hc1, hr1, ho1⟩ := add_ok_spec s method path a.responseStatus
        a.responseObject a.responseContentType a.requestCaptureFunc a.opts o hpo
      rw [hadd] at h
      obtain ⟨rs, hmap, hc2, hr2, ho2⟩ := ih s1 s2 h
      refine ⟨NewRequestResponse method path a.responseStatus a.responseObject
          a.responseContentType a.requestCaptureFunc o :: rs, ?_, ?_, ?_, ?_⟩
      · simp [addedRecord, hpo, hmap]
      · rw [hc2, hc1]
      · rw [hr2, hr1]
        simp
      · intro k hk
        rw [ho2 k hk, ho1 k hk]

/-! ### Congruence lemmas: what each read-out depends on -/

theorem interaction_congr_records (s1 s2 : Interactions) (method path : String) (i : Int)
    (h : (mapFind s1.interactions (getKey method path)).map interactionsEntry.requestResponses
       = (mapFind s2.interactions (getKey method path)).map interactionsEntry.requestResponses) :
    s1.Interaction method path i = s2.Interaction method path i := by
  unfold Interactions.Interaction
  cases h1 : mapFind s1.interactions (getKey method path) with
  | none =>
    cases h2 : mapFind s2.interactions (getKey method path) with
    | none => rfl
    | some mi2 => simp [h1, h2] at h
  | some mi1 =>
    cases h2 : mapFind s2.interactions (getKey method path) with
    | none => simp [h1, h2] at h
    | some mi2 =>
      simp only [h1, h2, Option.map_some', Option.some.injEq] at h
      dsimp only
      rw [h]

theorem allInteractions_eq_recordsOf (s : Interactions) (method path : String) :
    s.AllInteractions method path = recordsOf s (getKey method path) := rfl

theorem recordsOf_congr (s1 s2 : Interactions) (k : String)
    (h : (mapFind s1.interactions k).map interactionsEntry.requestResponses
       = (mapFind s2.interactions k).map interactionsEntry.requestResponses) :
    recordsOf s1 k = recordsOf s2 k := by
  unfold recordsOf
  cases h1 : mapFind s1.interactions k with
  | none =>
    cases h2 : mapFind s2.interactions k with
    | none => rfl
    | some mi2 => simp [h1, h2] at h
  | some mi1 =>
    cases h2 : mapFind s2.interactions k with
    | none => simp [h1, h2] at h
    | some mi2 =>
      simp only [h1, h2, Option.map_some', Option.some.injEq] at h
      exact h

theorem nextInteraction_fst_congr (s1 s2 : Interactions) (method path : String)
    (h : mapFind s1.interactions (getKey method path)
       = mapFind s2.interactions (getKey method path)) :
    (s1.NextInteraction method path).fst = (s2.NextInteraction method path).fst := by
  cases hf : mapFind s2.interactions (getKey method path) with
  | none =>
    rw [nextInteraction_absent s1 method path (h.trans hf),
      nextInteraction_absent s2 method path hf]
  | some mi =>
    by_cases hlt : mi.attempt < mi.requestResponses.length
    · rw [nextInteraction_hit s1 method path mi (h.trans hf) hlt,
        nextInteraction_hit s2 method path mi hf hlt]
    · rw [nextInteraction_exhausted s1 method path mi (h.trans hf) (Nat.le_of_not_lt hlt),
        nextInteraction_exhausted s2 method path mi hf (Nat.le_of_not_lt hlt)]

theorem interaction_congr (s1 s2 : Interactions) (method path : String) (i : Int)
    (h : mapFind s1.interactions (getKey method path)
       = mapFind s2.interactions (getKey method path)) :
    s1.Interaction method path i = s2.Interaction method path i :=
  interaction_congr_records s1 s2 method path i (by rw [h])

theorem allInteractions_congr (s1 s2 : Interactions) (method path : String)
    (h : mapFind s1.interactions (getKey method path)
       = mapFind s2.interactions (getKey method path)) :
    s1.AllInteractions method path = s2.AllInteractions method path := by
  rw [allInteractions_eq_recordsOf, allInteractions_eq_recordsOf]
  exact recordsOf_congr s1 s2 _ (by rw [h])

/-- After one `NextInteraction` call, the map entry of every key holds
the same record list as before: only a cursor may have moved. -/
theorem nextInteraction_find_records (s : Interactions) (method path k : String) :
    (mapFind (s.NextInteraction method path).snd.interactions k).map
        interactionsEntry.requestResponses
      = (mapFind s.interactions k).map interactionsEntry.requestResponses := by
  by_cases hk : getKey method path = k
  · subst hk
    cases hf : mapFind s.interactions (getKey method path) with
    | none =>
      rw [nextInteraction_absent s method path hf]
      simp [hf]
    | some mi =>
      by_cases hlt : mi.attempt < mi.requestResponses.length
      · rw [nextInteraction_hit s method path mi hf hlt]
        simp [mapFind_insert_self, hf]
      · rw [nextInteraction_exhausted s method path mi hf (Nat.le_of_not_lt hlt)]
        simp [hf]
  · have h := runOp_find_untouched s (Op.matchNext method path) k
      (by simpa [opTouches] using hk)
    rw [show runOp s (Op.matchNext method path) = (s.NextInteraction method path).snd from rfl]
      at h
    rw [h]

/-! ### Concrete sample states -/

/-- Record added by `Add "GET" "/" 200 nil "JSON" nil` with no options. -/
def sampleRecord : RequestResponse := NewRequestResponse "GET" "/" 200 none "JSON" none ⟨0⟩

/-- Record as `sampleRecord` but with a capture callback (id 7). -/
def sampleCbRecord : RequestResponse := NewRequestResponse "GET" "/" 200 none "JSON" (some 7) ⟨0⟩

/-- Registry holding one unconsumed `sampleRecord` under `GET /`. -/
def sampleState : Interactions := ⟨[(getKey "GET" "/", ⟨0, [sampleRecord]⟩)]⟩

/-- Registry holding one unconsumed `sampleCbRecord` under `GET /`. -/
def sampleCbState : Interactions := ⟨[(getKey "GET" "/", ⟨0, [sampleCbRecord]⟩)]⟩

/-- Registry holding two unconsumed records under `GET /`. -/
def sample2State : Interactions :=
  ⟨[(getKey "GET" "/", ⟨0, [sampleRecord, sampleCbRecord]⟩)]⟩

/-! ### Claims -/

/-- C1: if records R1..Rn were added for key (method, path) via Add in
that order (starting from a state where the key is absent) and no Reset
occurred, the first n MatchNext calls for that key return R1..Rn in
exactly that order, and the (n+1)-th and every subsequent MatchNext call
returns "not found" (none) while no further Add for the key occurs. -/
theorem C1_fifo_at_most_once (s0 s1 : Interactions) (method path : String)
    (argsList : List AddArgs) (k : Nat)
    (hkey : mapFind s0.interactions (getKey method path) = none)
    (hadd : addAll s0 method path argsList = Except.ok s1) :
    (matchN s1 method path (argsList.length + k)).fst
      = argsList.map (addedRecord method path) ++ List.replicate k none := by
  obtain ⟨rs, hmap, hc, hr, _⟩ := addAll_ok method path argsList s0 s1 hadd
  have hc0 : cursorOf s0 (getKey method path) = 0 := by simp [cursorOf, hkey]
  have hr0 : recordsOf s0 (getKey method path) = [] := by simp [recordsOf, hkey]
  have hc1 : cursorOf s1 (getKey method path) = 0 := by rw [hc, hc0]
  have hr1 : recordsOf s1 (getKey method path) = rs := by rw [hr, hr0, List.nil_append]
  have hlen : argsList.length = rs.length := by
    have h2 := congrArg List.length hmap
    simpa using h2
  obtain ⟨h1, _, _, _⟩ :=
    matchN_spec method path (argsList.length + k) s1 (by rw [hc1]; exact Nat.zero_le _)
  rw [h1, hc1, hr1, List.drop_zero, hmap, hlen,
    List.take_of_length_le (Nat.le_add_right _ _)]
  congr 1
  congr 1
  omega

/-- Witness for C1: two records added under `GET /`, three MatchNext
calls: the two records in order, then none. -/
theorem C1_witness :
    (matchN (⟨[(getKey "GET" "/", ⟨0,
        [NewRequestResponse "GET" "/" 200 none "JSON" none ⟨0⟩,
         NewRequestResponse "GET" "/" 201 none "JSON" none ⟨0⟩]⟩)]⟩ : Interactions)
        "GET" "/" 3).fst
      = ([⟨200, none, "JSON", none, []⟩, ⟨201, none, "JSON", none, []⟩] : List AddArgs).map
          (addedRecord "GET" "/") ++ List.replicate 1 none :=
  C1_fifo_at_most_once NewInteractions
    ⟨[(getKey "GET" "/", ⟨0,
      [NewRequestResponse "GET" "/" 200 none "JSON" none ⟨0⟩,
       NewRequestResponse "GET" "/" 201 none "JSON" none ⟨0⟩]⟩)]⟩
    "GET" "/" [⟨200, none, "JSON", none, []⟩, ⟨201, none, "JSON", none, []⟩] 1 rfl rfl

/-- C3: the record returned by MatchNext is a detached snapshot: the
post-state of consume-then-capture is the post-state of the bare
consume, and the consume itself changes no stored record value, so
ReadAll and ReadAt observe the same stored records as if the mutation
had not happened. -/
theorem C3_detached_snapshot (s : Interactions) (method path : String)
    (body : Bytes) (headers : Header) :
    (handlerDispatch s method path body headers).snd = (s.NextInteraction method path).snd
    ∧ (∀ m2 p2, (s.NextInteraction method path).snd.AllInteractions m2 p2
        = s.AllInteractions m2 p2)
    ∧ (∀ m2 p2 (i : Int), (s.NextInteraction method path).snd.Interaction m2 p2 i
        = s.Interaction m2 p2 i) := by
  refine ⟨?_, ?_, ?_⟩
  · unfold handlerDispatch
    cases hn : s.NextInteraction method path with
    | mk fst snd => cases fst <;> rfl
  · intro m2 p2
    rw [allInteractions_eq_recordsOf, allInteractions_eq_recordsOf]
    exact recordsOf_congr _ _ _ (nextInteraction_find_records s method path _)
  · intro m2 p2 i
    exact interaction_congr_records _ _ _ _ i (nextInteraction_find_records s method path _)

/-- C4 fails as stated: the two pairs ("GET", "a_b") and ("GET_a", "b")
are distinct, yet an Add for the first changes the MatchNext result of
the second from none to the added record, because `getKey` maps both to
the same key "GET_a_b". -/
theorem C4_isolation_counterexample :
    (("GET", "a_b") : String × String) ≠ ("GET_a", "b")
    ∧ (NewInteractions.NextInteraction "GET_a" "b").fst = none
    ∧ (NewInteractions.Add "GET" "a_b" 200 none "JSON" none []).map
        (fun s => (s.NextInteraction "GET_a" "b").fst)
      = Except.ok (some (NewRequestResponse "GET" "a_b" 200 none "JSON" none ⟨0⟩)) :=
  ⟨by decide, rfl, rfl⟩

/-- C4 (amended): for every two (method, path) pairs whose derived keys
differ, Add and MatchNext calls for the first pair never affect the
queue or cursor of the second: MatchNext, ReadAt and ReadAll for the
second pair give the same results whether or not the operations on the
first pair intervened. -/
theorem C4_isolation_amended (s : Interactions) (m1 p1 m2 p2 : String) (ops : List Op)
    (hne : getKey m1 p1 ≠ getKey m2 p2)
    (hops : ∀ op ∈ ops, opForPair m1 p1 op) :
    ((runOps s ops).NextInteraction m2 p2).fst = (s.NextInteraction m2 p2).fst
    ∧ (∀ i, (runOps s ops).Interaction m2 p2 i = s.Interaction m2 p2 i)
    ∧ (runOps s ops).AllInteractions m2 p2 = s.AllInteractions m2 p2 := by
  have hfind : mapFind (runOps s ops).interactions (getKey m2 p2)
      = mapFind s.interactions (getKey m2 p2) := by
    apply runOps_find_untouched
    intro op hop
    have h2 := hops op hop
    cases op with
    | add m3 p3 st obj ct cb opts =>
      obtain ⟨hm, hp⟩ := h2
      subst hm; subst hp
      simpa [opTouches] using hne
    | matchNext m3 p3 =>
      obtain ⟨hm, hp⟩ := h2
      subst hm; subst hp
      simpa [opTouches] using hne
    | readAt m3 p3 a => exact h2.elim
    | readAll m3 p3 => exact h2.elim
    | reset => exact h2.elim
  exact ⟨nextInteraction_fst_congr _ _ _ _ hfind,
    fun i => interaction_congr _ _ _ _ i hfind,
    allInteractions_congr _ _ _ _ hfind⟩

/-- Witness for C4 (amended): an Add and a MatchNext for `GET /x` leave
all three read-outs of `GET /y` unchanged. -/
theorem C4_isolation_witness :
    ((runOps NewInteractions [Op.add "GET" "x" 200 none "JSON" none [],
        Op.matchNext "GET" "x"]).NextInteraction "GET" "y").fst
      = (NewInteractions.NextInteraction "GET" "y").fst
    ∧ (∀ i, (runOps NewInteractions [Op.add "GET" "x" 200 none "JSON" none [],
        Op.matchNext "GET" "x"]).Interaction "GET" "y" i
        = NewInteractions.Interaction "GET" "y" i)
    ∧ (runOps NewInteractions [Op.add "GET" "x" 200 none "JSON" none [],
        Op.matchNext "GET" "x"]).AllInteractions "GET" "y"
      = NewInteractions.AllInteractions "GET" "y" :=
  C4_isolation_amended NewInteractions "GET" "x" "GET" "y"
    [Op.add "GET" "x" 200 none "JSON" none [], Op.matchNext "GET" "x"]
    (by decide)
    (by
      intro op hop
      simp only [List.mem_cons, List.not_mem_nil, or_false] at hop
      rcases hop with rfl | rfl
      · exact ⟨rfl, rfl⟩
      · exact ⟨rfl, rfl⟩)

/-- C5: with the cursor at 0 and exactly C records stored for a key, C
MatchNext calls for that key (each call is atomic under the registry
mutex, so any concurrent interleaving is equivalent to this
serialization) deliver each of the C stored records to exactly one
caller, in storage order: no record is returned twice, none is omitted,
and no call comes back empty. -/
theorem C5_concurrent_delivery (s : Interactions) (method path : String) (C : Nat)
    (h0 : cursorOf s (getKey method path) = 0)
    (hC : (recordsOf s (getKey method path)).length = C) :
    (matchN s method path C).fst = (recordsOf s (getKey method path)).map some := by
  obtain ⟨h1, _, _, _⟩ := matchN_spec method path C s (by omega)
  rw [h1, h0, List.drop_zero, ← hC, List.take_length]
  have hz : (recordsOf s (getKey method path)).length
      - ((recordsOf s (getKey method path)).length - 0) = 0 := by omega
  rw [hz]
  simp

/-- Witness for C5: a queue of two records is fully delivered by two
calls. -/
theorem C5_witness :
    (matchN sample2State "GET" "/" 2).fst
      = (recordsOf sample2State (getKey "GET" "/")).map some :=
  C5_concurrent_delivery sample2State "GET" "/" 2 rfl rfl

/-! ### Per-operation cursor and queue lemmas (towards C6) -/

theorem cursorOf_congr (s1 s2 : Interactions) (k : String)
    (h : mapFind s1.interactions k = mapFind s2.interactions k) :
    cursorOf s1 k = cursorOf s2 k := by
  unfold cursorOf
  rw [h]

theorem recordsOf_congr_find (s1 s2 : Interactions) (k : String)
    (h : mapFind s1.interactions k = mapFind s2.interactions k) :
    recordsOf s1 k = recordsOf s2 k := by
  unfold recordsOf
  rw [h]

/-- Every operation other than Reset keeps each cursor non-decreasing,
only ever appends to each queue, and preserves `cursor ≤ len`. -/
theorem runOp_entry_step (s : Interactions) (op : Op) (k : String) (hop : op ≠ Op.reset) :
    cursorOf s k ≤ cursorOf (runOp s op) k
    ∧ (∃ t, recordsOf s k ++ t = recordsOf (runOp s op) k)
    ∧ (cursorOf s k ≤ (recordsOf s k).length →
        cursorOf (runOp s op) k ≤ (recordsOf (runOp s op) k).length) := by
  cases op with
  | add m2 p2 st obj ct cb opts =>
    cases hpo : ProcessOptions opts with
    | error e =>
      have hr : runOp s (Op.add m2 p2 st obj ct cb opts) = s := by
        simp [runOp, add_error s m2 p2 st obj ct cb opts e hpo]
      rw [hr]
      exact ⟨Nat.le_refl _, ⟨[], List.append_nil _⟩, fun h => h⟩
    | ok o =>
      have hr : runOp s (Op.add m2 p2 st obj ct cb opts)
          = ⟨mapInsert s.interactions (getKey m2 p2)
              ⟨cursorOf s (getKey m2 p2),
               recordsOf s (getKey m2 p2)
                 ++ [NewRequestResponse m2 p2 st obj ct cb o]⟩⟩ := by
        simp [runOp, add_ok s m2 p2 st obj ct cb opts o hpo]
      rw [hr]
      by_cases hk : getKey m2 p2 = k
      · subst hk
        refine ⟨?_, ?_, ?_⟩
        · refine Nat.le_of_eq ?_
          simp [cursorOf, mapFind_insert_self]
        · exact ⟨[NewRequestResponse m2 p2 st obj ct cb o],
            by simp [recordsOf, mapFind_insert_self]⟩
        · intro h
          simp only [cursorOf, recordsOf, mapFind_insert_self, List.length_append]
          simp only [cursorOf, recordsOf] at h
          omega
      · have hfind : mapFind (mapInsert s.interactions (getKey m2 p2)
            ⟨cursorOf s (getKey m2 p2),
             recordsOf s (getKey m2 p2) ++ [NewRequestResponse m2 p2 st obj ct cb o]⟩) k
            = mapFind s.interactions k := mapFind_insert_other _ _ _ _ hk
        refine ⟨Nat.le_of_eq (cursorOf_congr _ _ k hfind).symm,
          ⟨[], ?_⟩, fun h => ?_⟩
        · rw [List.append_nil]
          exact (recordsOf_congr_find _ _ k hfind).symm
        · rw [cursorOf_congr _ _ k hfind, recordsOf_congr_find _ _ k hfind]
          exact h
  | matchNext m2 p2 =>
    have hrun : runOp s (Op.matchNext m2 p2) = (s.NextInteraction m2 p2).snd := rfl
    rw [hrun]
    by_cases hlt : cursorOf s (getKey m2 p2) < (recordsOf s (getKey m2 p2)).length
    · obtain ⟨_, h2, h3, h4⟩ := (nextInteraction_step s m2 p2).1 hlt
      by_cases hk : getKey m2 p2 = k
      · subst hk
        refine ⟨by rw [h2]; omega, ⟨[], by rw [List.append_nil, h3]⟩, fun _ => by
          rw [h2, h3]; omega⟩
      · have hfind := h4 k (fun he => hk he.symm)
        refine ⟨Nat.le_of_eq (cursorOf_congr _ _ k hfind).symm, ⟨[], ?_⟩, fun h => ?_⟩
        · rw [List.append_nil]
          exact (recordsOf_congr_find _ _ k hfind).symm
        · rw [cursorOf_congr _ _ k hfind, recordsOf_congr_find _ _ k hfind]
          exact h
    · have hstep := (nextInteraction_step s m2 p2).2 (Nat.le_of_not_lt hlt)
      rw [hstep]
      exact ⟨Nat.le_refl _, ⟨[], List.append_nil _⟩, fun h => h⟩
  | readAt m2 p2 a => exact ⟨Nat.le_refl _, ⟨[], List.append_nil _⟩, fun h => h⟩
  | readAll m2 p2 => exact ⟨Nat.le_refl _, ⟨[], List.append_nil _⟩, fun h => h⟩
  | reset => exact absurd rfl hop

/-- Every operation, Reset included, preserves `cursor ≤ len` for every
key. -/
theorem runOp_invariant (s : Interactions) (op : Op) (k : String)
    (h : cursorOf s k ≤ (recordsOf s k).length) :
    cursorOf (runOp s op) k ≤ (recordsOf (runOp s op) k).length := by
  by_cases hop : op = Op.reset
  · subst hop
    simp [runOp, Interactions.Reset, cursorOf, recordsOf, mapFind]
  · exact (runOp_entry_step s op k hop).2.2 h

theorem runOps_invariant (ops : List Op) (k : String) :
    cursorOf (runOps NewInteractions ops) k
      ≤ (recordsOf (runOps NewInteractions ops) k).length := by
  have general : ∀ (l : List Op) (s : Interactions),
      cursorOf s k ≤ (recordsOf s k).length →
      cursorOf (runOps s l) k ≤ (recordsOf (runOps s l) k).length := by
    intro l
    induction l with
    | nil => exact fun s h => h
    | cons op rest ih =>
      intro s h
      rw [runOps_cons]
      exact ih (runOp s op) (runOp_invariant s op k h)
  exact general ops NewInteractions (Nat.le_refl 0)

/-! ### Interaction (ReadAt) helper lemmas -/

theorem interaction_absent (s : Interactions) (method path : String) (i : Int)
    (hf : mapFind s.interactions (getKey method path) = none) :
    s.Interaction method path i = Except.ok none := by
  unfold Interactions.Interaction
  simp [hf]

theorem interaction_out_of_range (s : Interactions) (method path : String) (i : Int)
    (mi : interactionsEntry)
    (hf : mapFind s.interactions (getKey method path) = some mi)
    (hge : (mi.requestResponses.length : Int) ≤ i) :
    s.Interaction method path i = Except.ok none := by
  unfold Interactions.Interaction
  simp only [hf]
  rw [if_pos hge]

theorem interaction_in_range (s : Interactions) (method path : String) (i : Int)
    (mi : interactionsEntry)
    (hf : mapFind s.interactions (getKey method path) = some mi)
    (h0 : 0 ≤ i) (hlt : i < (mi.requestResponses.length : Int)) :
    s.Interaction method path i = Except.ok (mi.requestResponses.get? i.toNat) := by
  unfold Interactions.Interaction
  simp only [hf]
  rw [if_neg (by omega), if_neg (by omega)]

theorem capture_fst (r : RequestResponse) (body : Bytes) (headers : Header) :
    (r.Capture body headers).fst
      = { r with CapturedRequestBody := some body,
                 CapturedRequestHeaders := some headers } := by
  unfold RequestResponse.Capture
  cases r.RequestCaptureFunc <;> rfl

theorem capture_snd_some (r : RequestResponse) (body : Bytes) (headers : Header)
    (fn : Nat) (h : r.RequestCaptureFunc = some fn) :
    (r.Capture body headers).snd = [(fn, body, headers)] := by
  unfold RequestResponse.Capture
  rw [h]

theorem capture_snd_none (r : RequestResponse) (body : Bytes) (headers : Header)
    (h : r.RequestCaptureFunc = none) :
    (r.Capture body headers).snd = [] := by
  unfold RequestResponse.Capture
  rw [h]

/-- C2 fails as stated: with one registered record under `GET /` whose
capture callback is id 7, consuming it and capturing body [1,2] with one
header invokes the callback exactly once with those values on the
returned detached copy, yet ReadAt at the consumed attempt index 0 still
shows an empty captured body (none), not the captured values. -/
theorem C2_capture_counterexample :
    ((handlerDispatch sampleCbState "GET" "/" [1, 2] [("H", ["v"])]).fst.map
        (fun pr => (pr.fst.CapturedRequestBody, pr.snd))
      = some (some [1, 2], [(7, [1, 2], [("H", ["v"])])]))
    ∧ ((handlerDispatch sampleCbState "GET" "/" [1, 2] [("H", ["v"])]).snd.Interaction
        "GET" "/" 0).map (fun r => r.map RequestResponse.CapturedRequestBody)
      = Except.ok (some none)
    ∧ some (none : Option Bytes) ≠ some (some [1, 2]) :=
  ⟨rfl, rfl, by decide⟩

/-- C2 (amended): after the record at the key's cursor is consumed via
MatchNext and `Capture body headers` runs on the returned record (the
handler step), the capture callback, when present, is invoked exactly
once with exactly those values, and the captured fields are set on the
returned copy — but ReadAt on the consumed attempt index returns the
stored record unchanged, with its captured fields still empty, because
MatchNext returned a detached copy. -/
theorem C2_capture_amended (s : Interactions) (method path : String)
    (mi : interactionsEntry) (body : Bytes) (headers : Header)
    (hf : mapFind s.interactions (getKey method path) = some mi)
    (hlt : mi.attempt < mi.requestResponses.length) :
    (handlerDispatch s method path body headers).fst
      = some ((mi.requestResponses.get ⟨mi.attempt, hlt⟩).Capture body headers)
    ∧ ((mi.requestResponses.get ⟨mi.attempt, hlt⟩).Capture body
        headers).fst.CapturedRequestBody = some body
    ∧ ((mi.requestResponses.get ⟨mi.attempt, hlt⟩).Capture body
        headers).fst.CapturedRequestHeaders = some headers
    ∧ (∀ fn, (mi.requestResponses.get ⟨mi.attempt, hlt⟩).RequestCaptureFunc = some fn →
        ((mi.requestResponses.get ⟨mi.attempt, hlt⟩).Capture body headers).snd
          = [(fn, body, headers)])
    ∧ ((mi.requestResponses.get ⟨mi.attempt, hlt⟩).RequestCaptureFunc = none →
        ((mi.requestResponses.get ⟨mi.attempt, hlt⟩).Capture body headers).snd = [])
    ∧ (handlerDispatch s method path body headers).snd.Interaction method path
        (mi.attempt : Int)
      = Except.ok (some (mi.requestResponses.get ⟨mi.attempt, hlt⟩)) := by
  have hnext := nextInteraction_hit s method path mi hf hlt
  refine ⟨?_, ?_, ?_, ?_, ?_, ?_⟩
  · unfold handlerDispatch
    rw [hnext]
  · rw [capture_fst]
  · rw [capture_fst]
  · intro fn hfn
    exact capture_snd_some _ body headers fn hfn
  · intro hfn
    exact capture_snd_none _ body headers hfn
  · have hsnd : (handlerDispatch s method path body headers).snd
        = ⟨mapInsert s.interactions (getKey method path)
            ⟨mi.attempt + 1, mi.requestResponses⟩⟩ := by
      unfold handlerDispatch
      rw [hnext]
    rw [hsnd,
      interaction_in_range _ method path (mi.attempt : Int)
        ⟨mi.attempt + 1, mi.requestResponses⟩ (mapFind_insert_self _ _ _)
        (by omega) (by exact_mod_cast hlt)]
    rw [show ((mi.attempt : Int)).toNat = mi.attempt from rfl, List.get?_eq_get hlt]

/-- Witness for C2 (amended): the concrete consume-and-capture run used
in the counterexample, seen from the amended side. -/
theorem C2_witness :
    (handlerDispatch sampleCbState "GET" "/" [1, 2] [("H", ["v"])]).fst
      = some (sampleCbRecord.Capture [1, 2] [("H", ["v"])])
    ∧ (sampleCbRecord.Capture [1, 2] [("H", ["v"])]).fst.CapturedRequestBody = some [1, 2]
    ∧ (sampleCbRecord.Capture [1, 2] [("H", ["v"])]).snd = [(7, [1, 2], [("H", ["v"])])]
    ∧ (handlerDispatch sampleCbState "GET" "/" [1, 2] [("H", ["v"])]).snd.Interaction
        "GET" "/" 0 = Except.ok (some sampleCbRecord) := by
  obtain ⟨h1, h2, h3, h4, h5, h6⟩ :=
    C2_capture_amended sampleCbState "GET" "/" ⟨0, [sampleCbRecord]⟩ [1, 2]
      [("H", ["v"])] rfl (by decide)
  exact ⟨h1, h2, h4 7 rfl, h6⟩

/-- C6: along every operation trace from a fresh registry the cursor of
every key satisfies `cursor ≤ len(records)` (with `cursor : Nat`, so
`0 ≤ cursor` holds by construction, matching a Go int that is only ever
zero-initialized and incremented); every operation other than Reset
keeps each cursor non-decreasing and only ever appends to each queue;
the cursor of a fresh registry is 0; and an exhausted key
(`cursor = len`) yields "not found" with an unchanged state until an Add
appends a record, after which the key is no longer exhausted. -/
theorem C6_cursor_invariant (ops : List Op) (key : String) :
    cursorOf (runOps NewInteractions ops) key
      ≤ (recordsOf (runOps NewInteractions ops) key).length
    ∧ (∀ (s : Interactions) (op : Op), op ≠ Op.reset →
        cursorOf s key ≤ cursorOf (runOp s op) key
        ∧ ∃ t, recordsOf s key ++ t = recordsOf (runOp s op) key)
    ∧ cursorOf NewInteractions key = 0
    ∧ (∀ (s : Interactions) (method path : String), getKey method path = key →
        cursorOf s key = (recordsOf s key).length →
        s.NextInteraction method path = (none, s)
        ∧ ∀ (st : Int) (obj : Option String) (ct : String) (cb : Option Nat)
            (o : HttpMockOptions) (opts : List HttpMockOptionFunc) (s2 : Interactions),
            ProcessOptions opts = Except.ok o →
            s.Add method path st obj ct cb opts = Except.ok s2 →
            cursorOf s2 key < (recordsOf s2 key).length) := by
  refine ⟨runOps_invariant ops key, ?_, rfl, ?_⟩
  · intro s op hop
    exact ⟨(runOp_entry_step s op key hop).1, (runOp_entry_step s op key hop).2.1⟩
  · intro s method path hkey hex
    subst hkey
    constructor
    · exact (nextInteraction_step s method path).2 (Nat.le_of_eq hex.symm)
    · intro st obj ct cb o opts s2 hpo hadd
      obtain ⟨s2x, hadd2, hc, hr, _⟩ := add_ok_spec s method path st obj ct cb opts o hpo
      rw [hadd2] at hadd
      injection hadd with hadd
      subst hadd
      rw [hc, hr, hex, List.length_append, List.length_singleton]
      omega

/-- Witness for C6 at concrete inputs. -/
theorem C6_witness :
    (cursorOf (runOps NewInteractions [Op.matchNext "GET" "/"]) (getKey "GET" "/")
      ≤ (recordsOf (runOps NewInteractions [Op.matchNext "GET" "/"])
          (getKey "GET" "/")).length)
    ∧ (cursorOf NewInteractions (getKey "GET" "/")
        ≤ cursorOf (runOp NewInteractions (Op.readAll "GET" "/")) (getKey "GET" "/")
       ∧ ∃ t, recordsOf NewInteractions (getKey "GET" "/") ++ t
          = recordsOf (runOp NewInteractions (Op.readAll "GET" "/")) (getKey "GET" "/"))
    ∧ cursorOf NewInteractions (getKey "GET" "/") = 0
    ∧ NewInteractions.NextInteraction "GET" "/" = (none, NewInteractions)
    ∧ cursorOf sampleState (getKey "GET" "/")
      < (recordsOf sampleState (getKey "GET" "/")).length := by
  obtain ⟨h1, h2, h3, h4⟩ := C6_cursor_invariant [Op.matchNext "GET" "/"] (getKey "GET" "/")
  obtain ⟨h5, h6⟩ := h4 NewInteractions "GET" "/" rfl rfl
  exact ⟨h1, h2 NewInteractions (Op.readAll "GET" "/") (by intro hh; cases hh), h3, h5,
    h6 200 none "JSON" none ⟨0⟩ [] sampleState rfl rfl⟩

/-- C7 fails as stated: with one record stored under `GET /`, ReadAt
with the negative attempt index -1 does not return "not found" — the Go
code indexes the slice with a negative index and panics. -/
theorem C7_readAt_counterexample :
    sampleState.Interaction "GET" "/" (-1) = Except.error ()
    ∧ sampleState.Interaction "GET" "/" (-1) ≠ Except.ok none := by
  refine ⟨rfl, fun h => ?_⟩
  rw [show sampleState.Interaction "GET" "/" (-1) = Except.error () from rfl] at h
  exact Except.noConfusion h

/-- C7 (amended): for every non-negative attempt index, ReadAt never
panics; it returns "not found" when the key is absent or the index is
at or past the end of the record list, returns the stored record at that
zero-based index otherwise, and changes no registry state. -/
theorem C7_readAt_amended (s : Interactions) (method path : String) (i : Int)
    (h : 0 ≤ i) :
    (∃ v, s.Interaction method path i = Except.ok v)
    ∧ (mapFind s.interactions (getKey method path) = none →
        s.Interaction method path i = Except.ok none)
    ∧ (∀ mi, mapFind s.interactions (getKey method path) = some mi →
        ((mi.requestResponses.length : Int) ≤ i →
          s.Interaction method path i = Except.ok none)
        ∧ (i < (mi.requestResponses.length : Int) →
            ∃ r, s.Interaction method path i = Except.ok (some r)
              ∧ mi.requestResponses.get? i.toNat = some r))
    ∧ runOp s (Op.readAt method path i) = s := by
  refine ⟨?_, fun hf => interaction_absent s method path i hf, ?_, rfl⟩
  · cases hf : mapFind s.interactions (getKey method path) with
    | none => exact ⟨none, interaction_absent s method path i hf⟩
    | some mi =>
      by_cases hge : (mi.requestResponses.length : Int) ≤ i
      · exact ⟨none, interaction_out_of_range s method path i mi hf hge⟩
      · exact ⟨mi.requestResponses.get? i.toNat,
          interaction_in_range s method path i mi hf h (by omega)⟩
  · intro mi hf
    refine ⟨fun hge => interaction_out_of_range s method path i mi hf hge, fun hlt => ?_⟩
    have hn : i.toNat < mi.requestResponses.length := by omega
    exact ⟨mi.requestResponses.get ⟨i.toNat, hn⟩,
      by rw [interaction_in_range s method path i mi hf h hlt, List.get?_eq_get hn],
      List.get?_eq_get hn⟩

/-- Witness for C7 (amended) at concrete inputs. -/
theorem C7_witness :
    (∃ v, sampleState.Interaction "GET" "/" 0 = Except.ok v)
    ∧ sampleState.Interaction "GET" "/" 3 = Except.ok none
    ∧ (∃ r, sampleState.Interaction "GET" "/" 0 = Except.ok (some r)
        ∧ [sampleRecord].get? (0 : Int).toNat = some r)
    ∧ runOp sampleState (Op.readAt "GET" "/" 0) = sampleState := by
  obtain ⟨h1, h2, h3, h4⟩ := C7_readAt_amended sampleState "GET" "/" 0 (by decide)
  refine ⟨h1, ?_, (h3 ⟨0, [sampleRecord]⟩ rfl).2 (by decide), h4⟩
  exact ((C7_readAt_amended sampleState "GET" "/" 3 (by decide)).2.2.1
    ⟨0, [sampleRecord]⟩ rfl).1 (by decide)

/-- C8: after Reset, every key (in particular every previously
registered one) yields "not found" from MatchNext and an empty sequence
from ReadAll, and stays that way along any further operations that
contain no Add for that key. -/
theorem C8_reset_clears (s : Interactions) (method path : String) (ops : List Op)
    (h : ∀ op ∈ ops, ¬ opAddsKey (getKey method path) op) :
    ((runOps s.Reset ops).NextInteraction method path).fst = none
    ∧ (runOps s.Reset ops).AllInteractions method path = [] := by
  have habs : mapFind (runOps s.Reset ops).interactions (getKey method path) = none :=
    runOps_absent s.Reset ops (getKey method path) rfl h
  constructor
  · rw [nextInteraction_absent _ method path habs]
  · rw [allInteractions_eq_recordsOf]
    unfold recordsOf
    rw [habs]

/-- Witness for C8: reset of a registry that held a record for `GET /`,
followed by an unrelated MatchNext. -/
theorem C8_witness :
    ((runOps sampleState.Reset [Op.matchNext "POST" "/x"]).NextInteraction "GET" "/").fst
      = none
    ∧ (runOps sampleState.Reset [Op.matchNext "POST" "/x"]).AllInteractions "GET" "/"
      = [] :=
  C8_reset_clears sampleState "GET" "/" [Op.matchNext "POST" "/x"]
    (by
      intro op hop
      simp only [List.mem_singleton] at hop
      subst hop
      exact fun hh => hh)

/-- C9: when option resolution fails, the failure is raised synchronously
at Add time (the Add call aborts with that error, Go: `logger.Panic`) and
the registry is left completely unchanged: no record appended, no queue
created or modified for any key. -/
theorem C9_invalid_option (s : Interactions) (method path : String) (st : Int)
    (obj : Option String) (ct : String) (cb : Option Nat)
    (opts : List HttpMockOptionFunc) (e : String)
    (h : ProcessOptions opts = Except.error e) :
    s.Add method path st obj ct cb opts = Except.error e
    ∧ runOp s (Op.add method path st obj ct cb opts) = s := by
  refine ⟨add_error s method path st obj ct cb opts e h, ?_⟩
  simp [runOp, add_error s method path st obj ct cb opts e h]

/-- Witness for C9: a single failing option function aborts the Add. -/
theorem C9_witness :
    NewInteractions.Add "GET" "/" 200 none "JSON" none
        [fun _ => Except.error "boom"] = Except.error "boom"
    ∧ runOp NewInteractions
        (Op.add "GET" "/" 200 none "JSON" none [fun _ => Except.error "boom"])
      = NewInteractions :=
  C9_invalid_option NewInteractions "GET" "/" 200 none "JSON" none
    [fun _ => Except.error "boom"] "boom" rfl

/-- C10: Add validates neither method nor path: for any strings,
including empty ones, Add succeeds (given resolvable options), appends
exactly one record to the derived key and touches no other key, and when
the key was previously absent or exhausted, the next MatchNext with the
identical method and path returns exactly that record. -/
theorem C10_add_no_validation (s : Interactions) (method path : String) (st : Int)
    (obj : Option String) (ct : String) (cb : Option Nat)
    (opts : List HttpMockOptionFunc) (o : HttpMockOptions)
    (h : ProcessOptions opts = Except.ok o) :
    ∃ s2, s.Add method path st obj ct cb opts = Except.ok s2
      ∧ recordsOf s2 (getKey method path)
        = recordsOf s (getKey method path)
          ++ [NewRequestResponse method path st obj ct cb o]
      ∧ (∀ k, k ≠ getKey method path →
          mapFind s2.interactions k = mapFind s.interactions k)
      ∧ (cursorOf s (getKey method path) = (recordsOf s (getKey method path)).length →
          (s2.NextInteraction method path).fst
            = some (NewRequestResponse method path st obj ct cb o)) := by
  obtain ⟨s2, hadd, hc, hr, ho⟩ := add_ok_spec s method path st obj ct cb opts o h
  refine ⟨s2, hadd, hr, ho, ?_⟩
  intro hex
  have hlt : cursorOf s2 (getKey method path) < (recordsOf s2 (getKey method path)).length := by
    rw [hc, hr, hex, List.length_append, List.length_singleton]
    omega
  obtain ⟨h1, _, _, _⟩ := (nextInteraction_step s2 method path).1 hlt
  rw [h1, hr, hc, hex]
  exact List.get?_concat_length _ _

/-- Witness for C10: Add with the empty method and empty path succeeds
and its record is returned by the next MatchNext. -/
theorem C10_witness :
    ∃ s2, NewInteractions.Add "" "" 204 none "" none [] = Except.ok s2
      ∧ recordsOf s2 (getKey "" "")
        = recordsOf NewInteractions (getKey "" "")
          ++ [NewRequestResponse "" "" 204 none "" none ⟨0⟩]
      ∧ (∀ k, k ≠ getKey "" "" →
          mapFind s2.interactions k = mapFind NewInteractions.interactions k)
      ∧ (cursorOf NewInteractions (getKey "" "")
          = (recordsOf NewInteractions (getKey "" "")).length →
          (s2.NextInteraction "" "").fst
            = some (NewRequestResponse "" "" 204 none "" none ⟨0⟩)) :=
  C10_add_no_validation NewInteractions "" "" 204 none "" none [] ⟨0⟩ rfl

